import Mathlib

/-!
Verification development for the SIMT divergence/reconvergence control-flow
engine of gpuocelot (header `ocelot/executive/interface/ReconvergenceMechanism.h`).

The repository ships only the interface declarations of the engine
(`ReconvergenceMechanism` and its four variants); the method bodies are not part
of the source tree. The operational definitions below are therefore modelled
from the specification, which describes the shared contract of the operations
`initialize`, `evalPredicate`, `eval_Bra`, `eval_Bar`, `eval_Reconverge`,
`eval_Exit`, `nextInstruction`, `getContext` and `stackSize`, the divergence
stack invariant, the error taxonomy, and the Running / Barrier-Wait / Terminated
state machine.

Thread masks are modelled as finite sets of lane indices drawn from
`Finset.range numThreads`; program counters are natural numbers.
-/

/-- Modelled from the spec: one pending execution path (`executive::CTAContext`,
whose definition is not in the tree) — active mask, resume program counter, and
the program counter at which this path must rendezvous with its siblings. -/
structure CTAContext where
  active : Finset ℕ
  resumePC : ℕ
  reconvergePC : ℕ
deriving DecidableEq

/-- Modelled from the spec: the error taxonomy of the engine. Each error is
fatal to the owning warp and carries the offending PC and thread mask. -/
inductive EngineError where
  | DivergenceStackOverflow (pc : ℕ) (mask : Finset ℕ)
  | BarrierMismatch (pc : ℕ) (mask : Finset ℕ)
  | UnsupportedControlFlow (pc : ℕ) (mask : Finset ℕ)
  | InvalidReconvergePoint (pc : ℕ) (mask : Finset ℕ)
deriving DecidableEq

/-- Modelled from the spec: the state owned by one reconvergence engine
(`ReconvergenceMechanism`): the warp's thread count (fixing the mask width),
the kernel entry PC, the terminal-sentinel reconvergence PC, the divergence
stack of pending contexts (`runtimeStack`, selected context at the head),
the contexts that have arrived at the pending barrier and are waiting for
their siblings, and the set of threads that have exited. -/
structure ReconvergenceMechanism where
  numThreads : ℕ
  entryPC : ℕ
  sentinelPC : ℕ
  runtimeStack : List CTAContext
  barrierStack : List CTAContext
  exited : Finset ℕ
deriving DecidableEq

namespace ReconvergenceMechanism

/-- The full set of thread lanes of the warp. -/
def warp (s : ReconvergenceMechanism) : Finset ℕ :=
  Finset.range s.numThreads

/-- Union of the active masks of a list of contexts. -/
def unionMasks (l : List CTAContext) : Finset ℕ :=
  l.foldr (fun c acc => c.active ∪ acc) ∅

/-- All pending contexts of the engine: the runnable ones followed by the ones
waiting at a barrier. -/
def allContexts (s : ReconvergenceMechanism) : List CTAContext :=
  s.runtimeStack ++ s.barrierStack

/-- The warp's total active mask: every thread currently claimed by some
pending context. -/
def totalActive (s : ReconvergenceMechanism) : Finset ℕ :=
  unionMasks (allContexts s)

/-- Modelled from the spec: `stackSize()` returns the number of pending
contexts. -/
def stackSize (s : ReconvergenceMechanism) : ℕ :=
  (allContexts s).length

/-- Modelled from the spec: `getContext()` returns the currently selected
context, the lock-step fetch point (the top of the runnable stack). -/
def getContext (s : ReconvergenceMechanism) : Option CTAContext :=
  s.runtimeStack.head?

/-- Modelled from the spec: the shared Running / Barrier-Wait / Terminated
state machine of the engine. -/
inductive ExecutionStatus where
  | Running
  | BarrierWait
  | Terminated
deriving DecidableEq

/-- Modelled from the spec: the current state-machine state. The warp is
Terminated when the stack is empty, in Barrier-Wait while some context has
arrived at a barrier and siblings have not, and Running otherwise. -/
def status (s : ReconvergenceMechanism) : ExecutionStatus :=
  if s.runtimeStack = [] ∧ s.barrierStack = [] then ExecutionStatus.Terminated
  else if s.barrierStack = [] then ExecutionStatus.Running
  else ExecutionStatus.BarrierWait

/-- Modelled from the spec: `initialize()` resets the stack to a single context
covering all threads, resume PC = kernel entry, reconvergence PC = the terminal
sentinel; the reset is the relaunch point, so no thread is marked exited and no
context is waiting at a barrier. Named `engineInit` here. -/
def engineInit (s : ReconvergenceMechanism) : ReconvergenceMechanism :=
  { s with
    runtimeStack := [⟨Finset.range s.numThreads, s.entryPC, s.sentinelPC⟩]
    barrierStack := []
    exited := ∅ }

/-- Modelled from the spec: `evalPredicate` computes the transient active
submask of the selected context from the caller-supplied per-thread predicate
values — threads whose predicate is false are excluded from the instruction's
side effects but remain in the context's active mask. It is a pure function of
the supplied values and performs no stack mutation, so the engine state is
returned unchanged. -/
def evalPredicate (s : ReconvergenceMechanism) (p : ℕ → Bool) :
    ReconvergenceMechanism × Finset ℕ :=
  match s.runtimeStack with
  | [] => (s, ∅)
  | c :: _ => (s, c.active.filter (fun t => p t))

/-- Modelled from the spec: `eval_Bra`. The caller supplies the branch-taken
and fallthrough masks (which must partition the selected context's active
mask), the branch target PC and the reconvergence PC computed by the variant's
policy. If both masks are non-empty the branch is divergent: the original
context is popped and two new contexts are pushed, the fallthrough one first
and the branch-taken one on top, both carrying the supplied reconvergence PC;
the call returns divergent = true. If only one mask is non-empty the context's
PC is updated in place and divergent = false is returned. A divergent push
that would make the pending-context count exceed the warp's thread count
raises `DivergenceStackOverflow` with the offending PC and mask instead. -/
def eval_Bra (s : ReconvergenceMechanism) (targetPC reconvPC : ℕ)
    (branch fallthrough : Finset ℕ) :
    Except EngineError (ReconvergenceMechanism × Bool) :=
  match s.runtimeStack with
  | [] => Except.ok (s, false)
  | c :: rest =>
    if branch.Nonempty then
      if fallthrough.Nonempty then
        if s.numThreads < rest.length + 2 + s.barrierStack.length then
          Except.error (EngineError.DivergenceStackOverflow c.resumePC c.active)
        else
          Except.ok
            ({ s with runtimeStack :=
                ⟨branch, targetPC, reconvPC⟩ ::
                ⟨fallthrough, c.resumePC + 1, reconvPC⟩ :: rest }, true)
      else
        Except.ok ({ s with runtimeStack :=
          { c with resumePC := targetPC } :: rest }, false)
    else
      if fallthrough.Nonempty then
        Except.ok ({ s with runtimeStack :=
          { c with resumePC := c.resumePC + 1 } :: rest }, false)
      else
        Except.ok (s, false)

/-- Modelled from the spec: `eval_Bar`. The selected context arriving at the
barrier is marked arrived (moved to the waiting set) and not executed further
while any live context obligated to the barrier has not arrived; once the last
runnable context arrives, all arrived contexts collapse into one context
covering the union of their masks, which resumes past the barrier. -/
def eval_Bar (s : ReconvergenceMechanism) : ReconvergenceMechanism :=
  match s.runtimeStack with
  | [] => s
  | c :: rest =>
    if rest = [] then
      { s with
        runtimeStack :=
          [⟨unionMasks (c :: s.barrierStack), c.resumePC + 1, s.sentinelPC⟩]
        barrierStack := [] }
    else
      { s with runtimeStack := rest, barrierStack := c :: s.barrierStack }

/-- Modelled from the spec: `eval_Reconverge`. Pops/merges all pending
contexts whose reconvergence PC equals the current PC into one context whose
active mask is the union of the merged masks and whose PC becomes this
instruction's address; fails with `InvalidReconvergePoint` if no pending
context's reconvergence PC matches the current PC. The spec leaves the merged
context's own reconvergence PC unspecified; the terminal sentinel is used. -/
def eval_Reconverge (s : ReconvergenceMechanism) :
    Except EngineError ReconvergenceMechanism :=
  match s.runtimeStack with
  | [] => Except.ok s
  | c :: _ =>
    let pc := c.resumePC
    let matching := s.runtimeStack.filter (fun x => x.reconvergePC == pc)
    if matching = [] then
      Except.error (EngineError.InvalidReconvergePoint pc c.active)
    else
      Except.ok { s with runtimeStack :=
        ⟨unionMasks matching, pc, s.sentinelPC⟩ ::
        s.runtimeStack.filter (fun x => !(x.reconvergePC == pc)) }

/-- Modelled from the spec: `eval_Exit`. The currently-predicated-active
threads of the selected context (the caller supplies the set `p` of threads
whose predicate holds) are removed from its active mask permanently and
recorded as exited; a context whose mask becomes empty is popped without
producing output. -/
def eval_Exit (s : ReconvergenceMechanism) (p : Finset ℕ) :
    ReconvergenceMechanism :=
  match s.runtimeStack with
  | [] => s
  | c :: rest =>
    let remaining := c.active \ p
    { s with
      exited := s.exited ∪ c.active ∩ p
      runtimeStack :=
        if remaining = ∅ then rest
        else { c with active := remaining } :: rest }

/-- Modelled from the spec: `nextInstruction` advances the selected context's
PC along sequential flow and reports whether execution continues (stack
non-empty) or the warp has terminated. -/
def nextInstruction (s : ReconvergenceMechanism) :
    ReconvergenceMechanism × Bool :=
  match s.runtimeStack with
  | [] => (s, false)
  | c :: rest =>
    ({ s with runtimeStack := { c with resumePC := c.resumePC + 1 } :: rest },
      true)

/-- Two contexts claim disjoint sets of threads. -/
def ctxDisjoint (a b : CTAContext) : Prop :=
  Disjoint a.active b.active

instance (a b : CTAContext) : Decidable (ctxDisjoint a b) := by
  unfold ctxDisjoint
  infer_instance

/-- The divergence-stack invariant of the spec: the warp is non-trivial, every
pending context's mask is non-empty, the masks are pairwise disjoint, their
union is exactly the set of live (not yet exited) threads of the warp, and
exited threads are threads of the warp. -/
def Inv (s : ReconvergenceMechanism) : Prop :=
  0 < s.numThreads ∧
  (∀ c ∈ allContexts s, c.active.Nonempty) ∧
  (allContexts s).Pairwise ctxDisjoint ∧
  totalActive s = warp s \ s.exited ∧
  s.exited ⊆ warp s

instance (s : ReconvergenceMechanism) : Decidable (Inv s) := by
  unfold Inv
  infer_instance

/-- Labels identifying which engine operation a step performs and with which
caller-supplied data. -/
inductive StepLabel where
  | braL (targetPC reconvPC : ℕ) (branch fallthrough : Finset ℕ)
  | barL
  | reconvergeL
  | exitL (p : Finset ℕ)
  | nextL
deriving DecidableEq

/-- Whether a step label is the barrier operation. -/
def StepLabel.isBar : StepLabel → Bool
  | StepLabel.barL => true
  | _ => false

/-- Modelled from the spec: one driving-loop step of the executing unit. The
engine is invoked with a selected context on the stack; for `eval_Bra` the
caller supplies masks that partition the selected context's active mask, per
the stated precondition of the contract. Error outcomes abort the warp and
yield no successor state. -/
inductive Step : ReconvergenceMechanism → StepLabel → ReconvergenceMechanism → Prop where
  | bra (s : ReconvergenceMechanism) (c : CTAContext) (rest : List CTAContext)
      (targetPC reconvPC : ℕ) (branch fallthrough : Finset ℕ)
      (s' : ReconvergenceMechanism) (d : Bool)
      (hs : s.runtimeStack = c :: rest)
      (hpart : branch ∪ fallthrough = c.active)
      (hdisj : Disjoint branch fallthrough)
      (hok : eval_Bra s targetPC reconvPC branch fallthrough = Except.ok (s', d)) :
      Step s (StepLabel.braL targetPC reconvPC branch fallthrough) s'
  | bar (s : ReconvergenceMechanism) (hne : s.runtimeStack ≠ []) :
      Step s StepLabel.barL (eval_Bar s)
  | reconverge (s s' : ReconvergenceMechanism) (hne : s.runtimeStack ≠ [])
      (hok : eval_Reconverge s = Except.ok s') :
      Step s StepLabel.reconvergeL s'
  | exitStep (s : ReconvergenceMechanism) (p : Finset ℕ)
      (hne : s.runtimeStack ≠ []) :
      Step s (StepLabel.exitL p) (eval_Exit s p)
  | next (s : ReconvergenceMechanism) (hne : s.runtimeStack ≠ []) :
      Step s StepLabel.nextL (nextInstruction s).1

/-- Reflexive-transitive closure of the driving-loop step relation. -/
def Steps (s s' : ReconvergenceMechanism) : Prop :=
  Relation.ReflTransGen (fun a b => ∃ l, Step a l b) s s'

end ReconvergenceMechanism

/-- A four-thread warp with two pending contexts that will reconverge at PC 9;
used to evaluate the theorems on concrete data. -/
def stateA : ReconvergenceMechanism :=
  { numThreads := 4
    entryPC := 0
    sentinelPC := 100
    runtimeStack := [⟨{0, 1}, 5, 9⟩, ⟨{2, 3}, 7, 9⟩]
    barrierStack := []
    exited := ∅ }

/-- A four-thread warp whose selected context has reached its reconvergence
point (current PC 9 equals both pending contexts' reconvergence PC). -/
def stateR : ReconvergenceMechanism :=
  { numThreads := 4
    entryPC := 0
    sentinelPC := 100
    runtimeStack := [⟨{0, 1}, 9, 9⟩, ⟨{2, 3}, 7, 9⟩]
    barrierStack := []
    exited := ∅ }

/-- A four-thread warp in which the context of lanes 2 and 3 has arrived at a
barrier and the context of lanes 0 and 1 is still runnable. -/
def stateBar : ReconvergenceMechanism :=
  { numThreads := 4
    entryPC := 0
    sentinelPC := 100
    runtimeStack := [⟨{0, 1}, 5, 9⟩]
    barrierStack := [⟨{2, 3}, 3, 9⟩]
    exited := ∅ }

/-- A single-thread warp used to exercise the divergence-stack overflow
error: splitting its only context would need two pending contexts. -/
def stateOv : ReconvergenceMechanism :=
  { numThreads := 1
    entryPC := 0
    sentinelPC := 100
    runtimeStack := [⟨{0}, 6, 9⟩]
    barrierStack := []
    exited := ∅ }

/-- Constructor parameter kinds appearing in the header's declarations: a
pointer to the emulated kernel's metadata and a pointer to the executing
cooperative thread array. -/
inductive CtorParam where
  | kernelPtr
  | ctaPtr
deriving DecidableEq

/-- Constructor signatures declared by the abstract base class
`ReconvergenceMechanism` (header lines 44-46): a kernel-and-CTA constructor
and a CTA-only constructor. -/
def reconvergenceMechanismCtors : List (List CtorParam) :=
  [[CtorParam.kernelPtr, CtorParam.ctaPtr], [CtorParam.ctaPtr]]

/-- Constructor signatures declared by `ReconvergenceIPDOM`
(header lines 124-125). -/
def reconvergenceIPDOMCtors : List (List CtorParam) :=
  [[CtorParam.kernelPtr, CtorParam.ctaPtr]]

/-- Constructor signatures declared by `ReconvergenceBarrier`
(header lines 145-146). -/
def reconvergenceBarrierCtors : List (List CtorParam) :=
  [[CtorParam.kernelPtr, CtorParam.ctaPtr]]

/-- Constructor signatures declared by `ReconvergenceTFGen6`
(header lines 169-170). -/
def reconvergenceTFGen6Ctors : List (List CtorParam) :=
  [[CtorParam.kernelPtr, CtorParam.ctaPtr]]

/-- Constructor signatures declared by `ReconvergenceTFSortedStack`
(header lines 195-196). -/
def reconvergenceTFSortedStackCtors : List (List CtorParam) :=
  [[CtorParam.kernelPtr, CtorParam.ctaPtr]]

namespace ReconvergenceMechanism

lemma ctxDisjoint_symm : Symmetric ctxDisjoint := by
  intro a b hab
  unfold ctxDisjoint at *
  exact hab.symm

lemma unionMasks_nil : unionMasks [] = ∅ := rfl

lemma unionMasks_cons (c : CTAContext) (l : List CTAContext) :
    unionMasks (c :: l) = c.active ∪ unionMasks l := rfl

lemma unionMasks_append (l₁ l₂ : List CTAContext) :
    unionMasks (l₁ ++ l₂) = unionMasks l₁ ∪ unionMasks l₂ := by
  induction l₁ with
  | nil => simp [unionMasks]
  | cons c l ih => simp [unionMasks_cons, ih, Finset.union_assoc]

lemma active_subset_unionMasks {c : CTAContext} {l : List CTAContext}
    (h : c ∈ l) : c.active ⊆ unionMasks l := by
  induction l with
  | nil => cases h
  | cons a l ih =>
    rcases List.mem_cons.mp h with h1 | h2
    · subst h1
      rw [unionMasks_cons]
      exact Finset.subset_union_left
    · rw [unionMasks_cons]
      exact (ih h2).trans Finset.subset_union_right

lemma unionMasks_perm {l₁ l₂ : List CTAContext} (h : l₁.Perm l₂) :
    unionMasks l₁ = unionMasks l₂ := by
  induction h with
  | nil => rfl
  | cons x _ ih => simp [unionMasks_cons, ih]
  | swap x y l => simp [unionMasks_cons, Finset.union_left_comm]
  | trans _ _ ih₁ ih₂ => exact ih₁.trans ih₂

lemma unionMasks_disjoint_left {l : List CTAContext} {m : Finset ℕ}
    (h : ∀ a ∈ l, Disjoint a.active m) : Disjoint (unionMasks l) m := by
  induction l with
  | nil => simp [unionMasks]
  | cons c l ih =>
    rw [unionMasks_cons, Finset.disjoint_union_left]
    exact ⟨h c (List.mem_cons_self c l),
      ih (fun a ha => h a (List.mem_cons_of_mem _ ha))⟩

lemma unionMasks_filter (l : List CTAContext) (p : CTAContext → Bool) :
    unionMasks l
      = unionMasks (l.filter p) ∪ unionMasks (l.filter (fun c => !(p c))) := by
  induction l with
  | nil => simp [unionMasks]
  | cons c l ih =>
    by_cases hc : p c = true
    · simp [List.filter_cons, hc, unionMasks_cons, ih, Finset.union_assoc]
    · simp [List.filter_cons, hc, unionMasks_cons, ih, Finset.union_left_comm]

lemma unionMasks_eq_map (l : List CTAContext) :
    unionMasks l = (l.map CTAContext.active).foldr (· ∪ ·) ∅ := by
  induction l with
  | nil => rfl
  | cons c l ih => simp [unionMasks_cons, ih]

lemma length_le_card_unionMasks {l : List CTAContext}
    (hpw : l.Pairwise ctxDisjoint) (hne : ∀ c ∈ l, c.active.Nonempty) :
    l.length ≤ (unionMasks l).card := by
  induction l with
  | nil => simp [unionMasks]
  | cons c l ih =>
    rw [List.pairwise_cons] at hpw
    have hdisj : Disjoint c.active (unionMasks l) :=
      (unionMasks_disjoint_left
        (fun a ha => ctxDisjoint_symm (hpw.1 a ha))).symm
    have h1 : 1 ≤ c.active.card :=
      Finset.card_pos.mpr (hne c (List.mem_cons_self c l))
    have h2 := ih hpw.2 (fun a ha => hne a (List.mem_cons_of_mem _ ha))
    rw [unionMasks_cons, Finset.card_union_of_disjoint hdisj, List.length_cons]
    omega

lemma inv_stackSize_le {s : ReconvergenceMechanism} (h : Inv s) :
    stackSize s ≤ s.numThreads := by
  obtain ⟨hn, hne, hpw, htot, hex⟩ := h
  have h1 := length_le_card_unionMasks hpw hne
  have h2 : (totalActive s).card ≤ (warp s).card :=
    Finset.card_le_card (by rw [htot]; exact Finset.sdiff_subset)
  have h3 : (warp s).card = s.numThreads := by simp [warp]
  calc stackSize s ≤ (unionMasks (allContexts s)).card := h1
    _ = (totalActive s).card := rfl
    _ ≤ s.numThreads := by rw [← h3]; exact h2

lemma inv_of_activeMap {s s' : ReconvergenceMechanism} (h : Inv s)
    (hn : s'.numThreads = s.numThreads) (hx : s'.exited = s.exited)
    (hm : (allContexts s').map CTAContext.active
        = (allContexts s).map CTAContext.active) : Inv s' := by
  obtain ⟨h1, h2, h3, h4, h5⟩ := h
  refine ⟨by rw [hn]; exact h1, ?_, ?_, ?_, by rw [hx, warp, hn]; exact h5⟩
  · intro x hx'
    have : x.active ∈ (allContexts s).map CTAContext.active := by
      rw [← hm]
      exact List.mem_map_of_mem _ hx'
    rcases List.mem_map.mp this with ⟨d, hd, hda⟩
    rw [← hda]
    exact h2 d hd
  · have hiff :
        ((allContexts s').map CTAContext.active).Pairwise Disjoint
          ↔ ((allContexts s).map CTAContext.active).Pairwise Disjoint := by
      rw [hm]
    rw [List.pairwise_map] at hiff
    rw [List.pairwise_map] at hiff
    exact hiff.mpr h3
  · have : totalActive s' = totalActive s := by
      rw [totalActive, totalActive, unionMasks_eq_map, unionMasks_eq_map, hm]
    rw [this, h4, warp, warp, hn, hx]

lemma eval_Bra_divergent_eq {s : ReconvergenceMechanism} {c : CTAContext}
    {rest : List CTAContext} {t r : ℕ} {b f : Finset ℕ}
    (hs : s.runtimeStack = c :: rest) (hb : b.Nonempty) (hf : f.Nonempty)
    (hbound : rest.length + 2 + s.barrierStack.length ≤ s.numThreads) :
    eval_Bra s t r b f
      = Except.ok ({ s with runtimeStack :=
          ⟨b, t, r⟩ :: ⟨f, c.resumePC + 1, r⟩ :: rest }, true) := by
  simp [eval_Bra, hs, hb, hf, Nat.not_lt.mpr hbound]

lemma eval_Bra_overflow_eq {s : ReconvergenceMechanism} {c : CTAContext}
    {rest : List CTAContext} {t r : ℕ} {b f : Finset ℕ}
    (hs : s.runtimeStack = c :: rest) (hb : b.Nonempty) (hf : f.Nonempty)
    (hover : s.numThreads < rest.length + 2 + s.barrierStack.length) :
    eval_Bra s t r b f
      = Except.error (EngineError.DivergenceStackOverflow c.resumePC c.active) := by
  simp [eval_Bra, hs, hb, hf, hover]

lemma eval_Bra_branch_only_eq {s : ReconvergenceMechanism} {c : CTAContext}
    {rest : List CTAContext} {t r : ℕ} {b f : Finset ℕ}
    (hs : s.runtimeStack = c :: rest) (hb : b.Nonempty) (hf : f = ∅) :
    eval_Bra s t r b f
      = Except.ok ({ s with runtimeStack :=
          { c with resumePC := t } :: rest }, false) := by
  simp [eval_Bra, hs, hb, hf]

lemma eval_Bra_fallthrough_only_eq {s : ReconvergenceMechanism} {c : CTAContext}
    {rest : List CTAContext} {t r : ℕ} {b f : Finset ℕ}
    (hs : s.runtimeStack = c :: rest) (hb : b = ∅) (hf : f.Nonempty) :
    eval_Bra s t r b f
      = Except.ok ({ s with runtimeStack :=
          { c with resumePC := c.resumePC + 1 } :: rest }, false) := by
  simp [eval_Bra, hs, hb, hf]

lemma eval_Bar_wait_eq {s : ReconvergenceMechanism} {c : CTAContext}
    {rest : List CTAContext}
    (hs : s.runtimeStack = c :: rest) (hne : rest ≠ []) :
    eval_Bar s
      = { s with runtimeStack := rest, barrierStack := c :: s.barrierStack } := by
  simp [eval_Bar, hs, hne]

lemma eval_Bar_merge_eq {s : ReconvergenceMechanism} {c : CTAContext}
    (hs : s.runtimeStack = [c]) :
    eval_Bar s
      = { s with
          runtimeStack :=
            [⟨unionMasks (c :: s.barrierStack), c.resumePC + 1, s.sentinelPC⟩]
          barrierStack := [] } := by
  simp [eval_Bar, hs]

lemma eval_Reconverge_fail_eq {s : ReconvergenceMechanism} {c : CTAContext}
    {rest : List CTAContext} (hs : s.runtimeStack = c :: rest)
    (hm : s.runtimeStack.filter (fun x => x.reconvergePC == c.resumePC) = []) :
    eval_Reconverge s
      = Except.error (EngineError.InvalidReconvergePoint c.resumePC c.active) := by
  rw [eval_Reconverge]
  split
  · simp_all
  · rename_i c' rest' heq
    rw [hs] at heq
    obtain ⟨rfl, rfl⟩ : c' = c ∧ rest' = rest := by
      constructor <;> injection heq <;> simp_all
    simp [hm]

lemma eval_Reconverge_merge_eq {s : ReconvergenceMechanism} {c : CTAContext}
    {rest : List CTAContext} (hs : s.runtimeStack = c :: rest)
    (hm : s.runtimeStack.filter (fun x => x.reconvergePC == c.resumePC) ≠ []) :
    eval_Reconverge s
      = Except.ok { s with runtimeStack :=
          ⟨unionMasks
              (s.runtimeStack.filter (fun x => x.reconvergePC == c.resumePC)),
            c.resumePC, s.sentinelPC⟩ ::
          s.runtimeStack.filter (fun x => !(x.reconvergePC == c.resumePC)) } := by
  rw [eval_Reconverge]
  split
  · simp_all
  · rename_i c' rest' heq
    rw [hs] at heq
    obtain ⟨rfl, rfl⟩ : c' = c ∧ rest' = rest := by
      constructor <;> injection heq <;> simp_all
    simp only [← hs, hm]
    simp [hm]

lemma eval_Exit_pop_eq {s : ReconvergenceMechanism} {c : CTAContext}
    {rest : List CTAContext} {p : Finset ℕ}
    (hs : s.runtimeStack = c :: rest) (hempty : c.active \ p = ∅) :
    eval_Exit s p
      = { s with exited := s.exited ∪ c.active ∩ p, runtimeStack := rest } := by
  simp [eval_Exit, hs, hempty]

lemma eval_Exit_keep_eq {s : ReconvergenceMechanism} {c : CTAContext}
    {rest : List CTAContext} {p : Finset ℕ}
    (hs : s.runtimeStack = c :: rest) (hne : c.active \ p ≠ ∅) :
    eval_Exit s p
      = { s with
          exited := s.exited ∪ c.active ∩ p
          runtimeStack := { c with active := c.active \ p } :: rest } := by
  simp [eval_Exit, hs, hne]

lemma nextInstruction_eq {s : ReconvergenceMechanism} {c : CTAContext}
    {rest : List CTAContext} (hs : s.runtimeStack = c :: rest) :
    nextInstruction s
      = ({ s with runtimeStack :=
          { c with resumePC := c.resumePC + 1 } :: rest }, true) := by
  simp [nextInstruction, hs]

lemma inv_engineInit {s : ReconvergenceMechanism} (h : 0 < s.numThreads) :
    Inv (engineInit s) := by
  refine ⟨h, ?_, ?_, ?_, ?_⟩
  · intro c hc
    simp [engineInit, allContexts] at hc
    rw [hc]
    simpa [Finset.nonempty_range_iff] using Nat.pos_iff_ne_zero.mp h
  · simp [engineInit, allContexts]
  · simp [engineInit, allContexts, totalActive, unionMasks, warp]
  · simp [engineInit]

lemma split_pairwise {c b1 f1 : CTAContext} {L : List CTAContext}
    {b f : Finset ℕ} (hpw : (c :: L).Pairwise ctxDisjoint)
    (hpart : b ∪ f = c.active) (hdisj : Disjoint b f)
    (hb1 : b1.active = b) (hf1 : f1.active = f) :
    (b1 :: f1 :: L).Pairwise ctxDisjoint := by
  rw [List.pairwise_cons] at hpw
  obtain ⟨hcL, hL⟩ := hpw
  have hbsub : b ⊆ c.active := hpart ▸ Finset.subset_union_left
  have hfsub : f ⊆ c.active := hpart ▸ Finset.subset_union_right
  refine List.Pairwise.cons ?_ (List.Pairwise.cons ?_ hL)
  · intro y hy
    rcases List.mem_cons.mp hy with rfl | hyL
    · unfold ctxDisjoint
      rw [hb1, hf1]
      exact hdisj
    · unfold ctxDisjoint
      rw [hb1]
      exact Finset.disjoint_of_subset_left hbsub (hcL y hyL)
  · intro y hyL
    unfold ctxDisjoint
    rw [hf1]
    exact Finset.disjoint_of_subset_left hfsub (hcL y hyL)

lemma divergent_bound {s : ReconvergenceMechanism} {c : CTAContext}
    {rest : List CTAContext} {b f : Finset ℕ} (h : Inv s)
    (hs : s.runtimeStack = c :: rest)
    (hpart : b ∪ f = c.active) (hdisj : Disjoint b f)
    (hb : b.Nonempty) (hf : f.Nonempty) :
    rest.length + 2 + s.barrierStack.length ≤ s.numThreads := by
  obtain ⟨h1, h2, h3, h4, h5⟩ := h
  have hall : allContexts s = c :: (rest ++ s.barrierStack) := by
    simp [allContexts, hs]
  rw [hall] at h2 h3
  have hpw' : ((⟨b, 0, 0⟩ : CTAContext) :: (⟨f, 0, 0⟩ : CTAContext)
      :: (rest ++ s.barrierStack)).Pairwise ctxDisjoint :=
    split_pairwise h3 hpart hdisj rfl rfl
  have hne' : ∀ x ∈ (⟨b, 0, 0⟩ : CTAContext) :: (⟨f, 0, 0⟩ : CTAContext)
      :: (rest ++ s.barrierStack), x.active.Nonempty := by
    intro x hx
    rcases List.mem_cons.mp hx with rfl | hx
    · exact hb
    rcases List.mem_cons.mp hx with rfl | hx
    · exact hf
    · exact h2 x (List.mem_cons_of_mem _ hx)
  have hlen := length_le_card_unionMasks hpw' hne'
  have hunion : unionMasks ((⟨b, 0, 0⟩ : CTAContext) :: (⟨f, 0, 0⟩ : CTAContext)
      :: (rest ++ s.barrierStack)) = totalActive s := by
    rw [totalActive, hall, unionMasks_cons, unionMasks_cons, unionMasks_cons,
      ← Finset.union_assoc]
    rw [show (⟨b, 0, 0⟩ : CTAContext).active = b from rfl,
      show (⟨f, 0, 0⟩ : CTAContext).active = f from rfl, hpart]
  have hcard : (totalActive s).card ≤ s.numThreads := by
    rw [h4]
    calc (warp s \ s.exited).card ≤ (warp s).card :=
          Finset.card_le_card Finset.sdiff_subset
      _ = s.numThreads := by simp [warp]
  rw [hunion] at hlen
  simp only [List.length_cons, List.length_append] at hlen
  omega

lemma inv_eval_Bra {s s' : ReconvergenceMechanism} {c : CTAContext}
    {rest : List CTAContext} {t r : ℕ} {b f : Finset ℕ} {d : Bool}
    (hs : s.runtimeStack = c :: rest)
    (hpart : b ∪ f = c.active) (hdisj : Disjoint b f)
    (hok : eval_Bra s t r b f = Except.ok (s', d))
    (h : Inv s) : Inv s' := by
  by_cases hb : b.Nonempty
  · by_cases hf : f.Nonempty
    · have hbound := divergent_bound h hs hpart hdisj hb hf
      rw [eval_Bra_divergent_eq hs hb hf hbound] at hok
      simp only [Except.ok.injEq, Prod.mk.injEq] at hok
      obtain ⟨hX, hd⟩ := hok
      subst hX
      obtain ⟨h1, h2, h3, h4, h5⟩ := h
      have hall : allContexts s = c :: (rest ++ s.barrierStack) := by
        simp [allContexts, hs]
      rw [hall] at h2 h3
      refine ⟨h1, ?_, ?_, ?_, h5⟩
      · intro x hx
        simp only [allContexts, List.cons_append, List.mem_cons] at hx
        rcases hx with rfl | hx
        · exact hb
        rcases hx with rfl | hx
        · exact hf
        · exact h2 x (List.mem_cons_of_mem _ (by simpa using hx))
      · show ((⟨b, t, r⟩ : CTAContext) :: (⟨f, c.resumePC + 1, r⟩ : CTAContext)
          :: (rest ++ s.barrierStack)).Pairwise ctxDisjoint
        exact split_pairwise h3 hpart hdisj rfl rfl
      · show unionMasks ((⟨b, t, r⟩ : CTAContext)
          :: (⟨f, c.resumePC + 1, r⟩ : CTAContext)
          :: (rest ++ s.barrierStack)) = warp s \ s.exited
        rw [unionMasks_cons, unionMasks_cons,
          show (⟨b, t, r⟩ : CTAContext).active = b from rfl,
          show (⟨f, c.resumePC + 1, r⟩ : CTAContext).active = f from rfl,
          ← Finset.union_assoc, hpart]
        rw [totalActive, hall, unionMasks_cons] at h4
        exact h4
    · have hfe : f = ∅ := Finset.not_nonempty_iff_eq_empty.mp hf
      rw [eval_Bra_branch_only_eq hs hb hfe] at hok
      simp only [Except.ok.injEq, Prod.mk.injEq] at hok
      obtain ⟨hX, hd⟩ := hok
      subst hX
      exact inv_of_activeMap h rfl rfl (by simp [allContexts, hs])
  · by_cases hf : f.Nonempty
    · have hbe : b = ∅ := Finset.not_nonempty_iff_eq_empty.mp hb
      rw [eval_Bra_fallthrough_only_eq hs hbe hf] at hok
      simp only [Except.ok.injEq, Prod.mk.injEq] at hok
      obtain ⟨hX, hd⟩ := hok
      subst hX
      exact inv_of_activeMap h rfl rfl (by simp [allContexts, hs])
    · have hbe : b = ∅ := Finset.not_nonempty_iff_eq_empty.mp hb
      have hfe : f = ∅ := Finset.not_nonempty_iff_eq_empty.mp hf
      have heq : eval_Bra s t r b f = Except.ok (s, false) := by
        simp [eval_Bra, hs, hbe, hfe]
      rw [heq] at hok
      simp only [Except.ok.injEq, Prod.mk.injEq] at hok
      obtain ⟨hX, hd⟩ := hok
      rw [← hX]
      exact h

lemma inv_nextInstruction {s : ReconvergenceMechanism} (h : Inv s) :
    Inv (nextInstruction s).1 := by
  cases hs : s.runtimeStack with
  | nil =>
    have heq : nextInstruction s = (s, false) := by simp [nextInstruction, hs]
    rw [heq]
    exact h
  | cons c rest =>
    rw [nextInstruction_eq hs]
    exact inv_of_activeMap h rfl rfl (by simp [allContexts, hs])

lemma inv_eval_Bar {s : ReconvergenceMechanism} (h : Inv s) :
    Inv (eval_Bar s) := by
  cases hs : s.runtimeStack with
  | nil =>
    have heq : eval_Bar s = s := by simp [eval_Bar, hs]
    rw [heq]
    exact h
  | cons c rest =>
    by_cases hr : rest = []
    · subst hr
      rw [eval_Bar_merge_eq hs]
      obtain ⟨h1, h2, h3, h4, h5⟩ := h
      have hall : allContexts s = c :: s.barrierStack := by
        simp [allContexts, hs]
      refine ⟨h1, ?_, ?_, ?_, h5⟩
      · intro x hx
        simp only [allContexts, List.append_nil, List.mem_singleton] at hx
        subst hx
        exact Finset.Nonempty.mono
          (active_subset_unionMasks (List.mem_cons_self c _))
          (h2 c (by rw [hall]; exact List.mem_cons_self c _))
      · simp [allContexts]
      · show unionMasks
            ([⟨unionMasks (c :: s.barrierStack), c.resumePC + 1, s.sentinelPC⟩]
              ++ ([] : List CTAContext)) = warp s \ s.exited
        rw [List.append_nil, unionMasks_cons, unionMasks_nil, Finset.union_empty]
        rw [totalActive, hall] at h4
        exact h4
    · rw [eval_Bar_wait_eq hs hr]
      have hperm : (rest ++ c :: s.barrierStack).Perm
          (c :: (rest ++ s.barrierStack)) := List.perm_middle
      obtain ⟨h1, h2, h3, h4, h5⟩ := h
      have hall : allContexts s = c :: (rest ++ s.barrierStack) := by
        simp [allContexts, hs]
      rw [hall] at h2 h3
      rw [totalActive, hall] at h4
      refine ⟨h1, ?_, ?_, ?_, h5⟩
      · intro x hx
        exact h2 x (hperm.mem_iff.mp hx)
      · show (rest ++ c :: s.barrierStack).Pairwise ctxDisjoint
        exact (List.pairwise_middle (fun h12 => ctxDisjoint_symm h12)).mpr h3
      · show unionMasks (rest ++ c :: s.barrierStack) = warp s \ s.exited
        rw [unionMasks_perm hperm]
        exact h4

lemma inv_eval_Exit {s : ReconvergenceMechanism} {p : Finset ℕ} (h : Inv s) :
    Inv (eval_Exit s p) := by
  cases hs : s.runtimeStack with
  | nil =>
    have heq : eval_Exit s p = s := by simp [eval_Exit, hs]
    rw [heq]
    exact h
  | cons c rest =>
    obtain ⟨h1, h2, h3, h4, h5⟩ := h
    have hall : allContexts s = c :: (rest ++ s.barrierStack) := by
      simp [allContexts, hs]
    rw [hall] at h2 h3
    rw [totalActive, hall, unionMasks_cons] at h4
    have hdisjL : Disjoint c.active (unionMasks (rest ++ s.barrierStack)) :=
      (unionMasks_disjoint_left
        (fun a ha => ctxDisjoint_symm ((List.pairwise_cons.mp h3).1 a ha))).symm
    have hsub_warp : c.active ⊆ warp s := by
      intro x hx
      have hx' : x ∈ warp s \ s.exited := by
        rw [← h4]
        exact Finset.mem_union_left _ hx
      exact (Finset.mem_sdiff.mp hx').1
  -- membership facts used by the element chase below
    have hmem := fun x => Finset.ext_iff.mp h4 x
    have hd := fun x (hx : x ∈ c.active) => Finset.disjoint_left.mp hdisjL hx
    by_cases he : c.active \ p = ∅
    · rw [eval_Exit_pop_eq hs he]
      have hcp : c.active ∩ p = c.active :=
        Finset.inter_eq_left.mpr (Finset.sdiff_eq_empty_iff_subset.mp he)
      refine ⟨h1, ?_, ?_, ?_, ?_⟩
      · intro x hx
        exact h2 x (List.mem_cons_of_mem _ hx)
      · show (rest ++ s.barrierStack).Pairwise ctxDisjoint
        exact (List.pairwise_cons.mp h3).2
      · show unionMasks (rest ++ s.barrierStack)
          = warp s \ (s.exited ∪ c.active ∩ p)
        rw [hcp]
        ext x
        have h4x := hmem x
        simp only [Finset.mem_union, Finset.mem_sdiff] at h4x
        simp only [Finset.mem_sdiff, Finset.mem_union]
        constructor
        · intro hx
          have hxc : x ∉ c.active := fun hc => hd x hc hx
          have := h4x.mp (Or.inr hx)
          exact ⟨this.1, fun hcase => hcase.elim this.2 hxc⟩
        · intro ⟨hw, hcase⟩
          rcases h4x.mpr ⟨hw, fun hx => hcase (Or.inl hx)⟩ with hc | hu
          · exact absurd hc (fun hc => hcase (Or.inr hc))
          · exact hu
      · exact Finset.union_subset h5
          (Finset.inter_subset_left.trans hsub_warp)
    · rw [eval_Exit_keep_eq hs he]
      refine ⟨h1, ?_, ?_, ?_, ?_⟩
      · intro x hx
        simp only [allContexts, List.cons_append, List.mem_cons] at hx
        rcases hx with rfl | hx
        · exact Finset.nonempty_iff_ne_empty.mpr he
        · exact h2 x (List.mem_cons_of_mem _ (by simpa using hx))
      · show ({ c with active := c.active \ p }
            :: (rest ++ s.barrierStack)).Pairwise ctxDisjoint
        refine List.Pairwise.cons ?_ (List.pairwise_cons.mp h3).2
        intro y hy
        unfold ctxDisjoint
        exact Finset.disjoint_of_subset_left (Finset.sdiff_subset)
          ((List.pairwise_cons.mp h3).1 y hy)
      · show unionMasks ({ c with active := c.active \ p }
            :: (rest ++ s.barrierStack))
          = warp s \ (s.exited ∪ c.active ∩ p)
        rw [unionMasks_cons]
        ext x
        have h4x := hmem x
        simp only [Finset.mem_union, Finset.mem_sdiff] at h4x
        simp only [Finset.mem_union, Finset.mem_sdiff, Finset.mem_inter]
        constructor
        · intro hx
          rcases hx with ⟨hc, hp⟩ | hu
          · have := h4x.mp (Or.inl hc)
            exact ⟨this.1, fun hcase =>
              hcase.elim this.2 (fun hcp => hp hcp.2)⟩
          · have := h4x.mp (Or.inr hu)
            have hxc : x ∉ c.active := fun hc => hd x hc hu
            exact ⟨this.1, fun hcase =>
              hcase.elim this.2 (fun hcp => hxc hcp.1)⟩
        · intro ⟨hw, hcase⟩
          rcases h4x.mpr ⟨hw, fun hx => hcase (Or.inl hx)⟩ with hc | hu
          · exact Or.inl ⟨hc, fun hp => hcase (Or.inr ⟨hc, hp⟩)⟩
          · exact Or.inr hu
      · exact Finset.union_subset h5
          (Finset.inter_subset_left.trans hsub_warp)

lemma inv_eval_Reconverge {s s' : ReconvergenceMechanism}
    (hok : eval_Reconverge s = Except.ok s') (h : Inv s) : Inv s' := by
  cases hs : s.runtimeStack with
  | nil =>
    have heq : eval_Reconverge s = Except.ok s := by simp [eval_Reconverge, hs]
    rw [heq] at hok
    simp only [Except.ok.injEq] at hok
    rw [← hok]
    exact h
  | cons c rest =>
    by_cases hm :
        s.runtimeStack.filter (fun x => x.reconvergePC == c.resumePC) = []
    · rw [eval_Reconverge_fail_eq hs hm] at hok
      simp at hok
    · rw [eval_Reconverge_merge_eq hs hm] at hok
      simp only [Except.ok.injEq] at hok
      subst hok
      obtain ⟨h1, h2, h3, h4, h5⟩ := h
      have hpwRB : (s.runtimeStack ++ s.barrierStack).Pairwise ctxDisjoint := h3
      rw [List.pairwise_append] at hpwRB
      obtain ⟨hpwR, hpwB, hcross⟩ := hpwRB
      have hmemM : ∀ x ∈ s.runtimeStack.filter
          (fun y => y.reconvergePC == c.resumePC), x ∈ s.runtimeStack :=
        fun x hx => List.mem_of_mem_filter hx
      have hmemN : ∀ x ∈ s.runtimeStack.filter
          (fun y => !(y.reconvergePC == c.resumePC)), x ∈ s.runtimeStack :=
        fun x hx => List.mem_of_mem_filter hx
      refine ⟨h1, ?_, ?_, ?_, h5⟩
      · intro x hx
        simp only [allContexts, List.cons_append, List.mem_cons,
          List.mem_append] at hx
        rcases hx with rfl | hx
        · obtain ⟨m, hmM⟩ := List.exists_mem_of_ne_nil _ hm
          exact Finset.Nonempty.mono (active_subset_unionMasks hmM)
            (h2 m (List.mem_append_left _ (hmemM m hmM)))
        · rcases hx with hxN | hxB
          · exact h2 x (List.mem_append_left _ (hmemN x hxN))
          · exact h2 x (List.mem_append_right _ hxB)
      · show (⟨unionMasks (s.runtimeStack.filter
              (fun y => y.reconvergePC == c.resumePC)),
            c.resumePC, s.sentinelPC⟩
          :: (s.runtimeStack.filter
              (fun y => !(y.reconvergePC == c.resumePC)) ++ s.barrierStack))
            |>.Pairwise ctxDisjoint
        refine List.Pairwise.cons ?_ ?_
        · intro y hy
          unfold ctxDisjoint
          refine unionMasks_disjoint_left ?_
          intro a haM
          rcases List.mem_append.mp hy with hyN | hyB
          · have haR := hmemM a haM
            have hyR := hmemN y hyN
            have hpa : (a.reconvergePC == c.resumePC) = true :=
              (List.mem_filter.mp haM).2
            have hpy : (!(y.reconvergePC == c.resumePC)) = true :=
              (List.mem_filter.mp hyN).2
            have hay : a ≠ y := by
              intro hay
              rw [hay] at hpa
              simp [hpa] at hpy
            exact hpwR.forall ctxDisjoint_symm haR hyR hay
          · exact hcross a (hmemM a haM) y hyB
        · rw [List.pairwise_append]
          refine ⟨List.Pairwise.sublist (List.filter_sublist _) hpwR,
            hpwB, ?_⟩
          intro a haN y hyB
          exact hcross a (hmemN a haN) y hyB
      · show unionMasks (⟨unionMasks (s.runtimeStack.filter
              (fun y => y.reconvergePC == c.resumePC)),
            c.resumePC, s.sentinelPC⟩
          :: (s.runtimeStack.filter
              (fun y => !(y.reconvergePC == c.resumePC)) ++ s.barrierStack))
          = warp s \ s.exited
        rw [unionMasks_cons, unionMasks_append, ← Finset.union_assoc]
        rw [show (⟨unionMasks (s.runtimeStack.filter
            (fun y => y.reconvergePC == c.resumePC)),
            c.resumePC, s.sentinelPC⟩ : CTAContext).active
          = unionMasks (s.runtimeStack.filter
            (fun y => y.reconvergePC == c.resumePC)) from rfl]
        rw [← unionMasks_filter s.runtimeStack
          (fun y => y.reconvergePC == c.resumePC)]
        rw [totalActive, allContexts, unionMasks_append] at h4
        exact h4

lemma eval_Bra_frame {s s' : ReconvergenceMechanism} {t r : ℕ}
    {b f : Finset ℕ} {d : Bool}
    (hok : eval_Bra s t r b f = Except.ok (s', d)) :
    s'.exited = s.exited ∧ s'.barrierStack = s.barrierStack := by
  cases hs : s.runtimeStack with
  | nil =>
    simp only [eval_Bra, hs, Except.ok.injEq, Prod.mk.injEq] at hok
    rw [← hok.1]
    exact ⟨rfl, rfl⟩
  | cons c rest =>
    simp only [eval_Bra, hs] at hok
    split_ifs at hok <;>
      simp only [Except.ok.injEq, Prod.mk.injEq, reduceCtorEq] at hok <;>
      [skip; skip; skip; skip] <;>
      (obtain ⟨hX, hd⟩ := hok; rw [← hX]; exact ⟨rfl, rfl⟩)

lemma eval_Bar_exited (s : ReconvergenceMechanism) :
    (eval_Bar s).exited = s.exited := by
  cases hs : s.runtimeStack with
  | nil => simp [eval_Bar, hs]
  | cons c rest =>
    by_cases hr : rest = [] <;> simp [eval_Bar, hs, hr]

lemma eval_Reconverge_frame {s s' : ReconvergenceMechanism}
    (hok : eval_Reconverge s = Except.ok s') :
    s'.exited = s.exited ∧ s'.barrierStack = s.barrierStack := by
  cases hs : s.runtimeStack with
  | nil =>
    have heq : eval_Reconverge s = Except.ok s := by simp [eval_Reconverge, hs]
    rw [heq] at hok
    simp only [Except.ok.injEq] at hok
    rw [← hok]
    exact ⟨rfl, rfl⟩
  | cons c rest =>
    by_cases hm :
        s.runtimeStack.filter (fun x => x.reconvergePC == c.resumePC) = []
    · rw [eval_Reconverge_fail_eq hs hm] at hok
      simp at hok
    · rw [eval_Reconverge_merge_eq hs hm] at hok
      simp only [Except.ok.injEq] at hok
      rw [← hok]
      exact ⟨rfl, rfl⟩

lemma eval_Exit_exited_mono {s : ReconvergenceMechanism} {p : Finset ℕ} :
    s.exited ⊆ (eval_Exit s p).exited := by
  cases hs : s.runtimeStack with
  | nil =>
    have heq : eval_Exit s p = s := by simp [eval_Exit, hs]
    rw [heq]
  | cons c rest =>
    by_cases he : c.active \ p = ∅
    · rw [eval_Exit_pop_eq hs he]
      exact Finset.subset_union_left
    · rw [eval_Exit_keep_eq hs he]
      exact Finset.subset_union_left

lemma eval_Exit_barrier (s : ReconvergenceMechanism) (p : Finset ℕ) :
    (eval_Exit s p).barrierStack = s.barrierStack := by
  cases hs : s.runtimeStack with
  | nil => simp [eval_Exit, hs]
  | cons c rest =>
    by_cases he : c.active \ p = ∅
    · rw [eval_Exit_pop_eq hs he]
    · rw [eval_Exit_keep_eq hs he]

lemma nextInstruction_frame (s : ReconvergenceMechanism) :
    (nextInstruction s).1.exited = s.exited
      ∧ (nextInstruction s).1.barrierStack = s.barrierStack := by
  cases hs : s.runtimeStack with
  | nil => simp [nextInstruction, hs]
  | cons c rest => rw [nextInstruction_eq hs]; exact ⟨rfl, rfl⟩

lemma inv_step {s s' : ReconvergenceMechanism} {l : StepLabel}
    (h : Inv s) (hstep : Step s l s') : Inv s' := by
  cases hstep with
  | bra c rest t r b f _ d hs hpart hdisj hok =>
    exact inv_eval_Bra hs hpart hdisj hok h
  | bar hne => exact inv_eval_Bar h
  | reconverge _ hne hok => exact inv_eval_Reconverge hok h
  | exitStep p hne => exact inv_eval_Exit h
  | next hne => exact inv_nextInstruction h

lemma step_exited_mono {s s' : ReconvergenceMechanism} {l : StepLabel}
    (hstep : Step s l s') : s.exited ⊆ s'.exited := by
  cases hstep with
  | bra c rest t r b f _ d hs hpart hdisj hok =>
    rw [(eval_Bra_frame hok).1]
  | bar hne => rw [eval_Bar_exited]
  | reconverge _ hne hok => rw [(eval_Reconverge_frame hok).1]
  | exitStep p hne => exact eval_Exit_exited_mono
  | next hne => rw [(nextInstruction_frame s).1]

lemma step_barrier_frame {s s' : ReconvergenceMechanism} {l : StepLabel}
    (hstep : Step s l s') (hl : l.isBar = false) :
    s'.barrierStack = s.barrierStack := by
  cases hstep with
  | bra c rest t r b f _ d hs hpart hdisj hok =>
    exact (eval_Bra_frame hok).2
  | bar hne => simp [StepLabel.isBar] at hl
  | reconverge _ hne hok => exact (eval_Reconverge_frame hok).2
  | exitStep p hne => exact eval_Exit_barrier s p
  | next hne => exact (nextInstruction_frame s).2

lemma steps_inv_exited {s s' : ReconvergenceMechanism} (h : Inv s)
    (hs : Steps s s') : Inv s' ∧ s.exited ⊆ s'.exited := by
  induction hs with
  | refl => exact ⟨h, subset_rfl⟩
  | tail hab hbc ih =>
    obtain ⟨l, hstep⟩ := hbc
    exact ⟨inv_step ih.1 hstep, ih.2.trans (step_exited_mono hstep)⟩

lemma barrier_not_selected {s : ReconvergenceMechanism} (h : Inv s) :
    ∀ b ∈ s.barrierStack, s.runtimeStack.head? ≠ some b := by
  intro b hb heq
  have hbr : b ∈ s.runtimeStack := List.mem_of_mem_head? heq
  have hpw : (s.runtimeStack ++ s.barrierStack).Pairwise ctxDisjoint := h.2.2.1
  have hcd : ctxDisjoint b b := hpw.rel_of_mem_append hbr hb
  have hne : b.active.Nonempty := h.2.1 b (List.mem_append_right _ hb)
  unfold ctxDisjoint at hcd
  rw [disjoint_self] at hcd
  exact Finset.nonempty_iff_ne_empty.mp hne hcd

lemma terminated_of_totalActive_empty {s : ReconvergenceMechanism}
    (h : Inv s) (ht : totalActive s = ∅) :
    stackSize s = 0 ∧ status s = ExecutionStatus.Terminated := by
  have hnil : allContexts s = [] := by
    cases hall : allContexts s with
    | nil => rfl
    | cons c rest =>
      have hne : c.active.Nonempty := h.2.1 c (by rw [hall]; exact List.mem_cons_self c _)
      have hsub : c.active ⊆ totalActive s :=
        active_subset_unionMasks (by rw [hall]; exact List.mem_cons_self c _)
      obtain ⟨x, hx⟩ := hne
      have : x ∈ (∅ : Finset ℕ) := ht ▸ hsub hx
      simp at this
  have hr : s.runtimeStack = [] := by
    have := congrArg List.length hnil
    simp [allContexts] at this
    exact this.1
  have hb : s.barrierStack = [] := by
    have := congrArg List.length hnil
    simp [allContexts] at this
    exact this.2
  refine ⟨by simp [stackSize, hnil], by simp [status, hr, hb]⟩

end ReconvergenceMechanism

open ReconvergenceMechanism

/-- C1: for every `eval_Bra` call whose branch and fallthrough masks partition
the selected context's active mask with both non-empty, the original context is
popped and two contexts are pushed whose masks are disjoint and whose union is
the pre-branch active mask, the call returns divergent = true, and `stackSize`
increases by exactly one net context. -/
theorem eval_Bra_divergent_partitions
    (s : ReconvergenceMechanism) (c : CTAContext) (rest : List CTAContext)
    (t r : ℕ) (b f : Finset ℕ)
    (hInv : Inv s) (hs : s.runtimeStack = c :: rest)
    (hpart : b ∪ f = c.active) (hdisj : Disjoint b f)
    (hb : b.Nonempty) (hf : f.Nonempty) :
    eval_Bra s t r b f
      = Except.ok ({ s with runtimeStack :=
          ⟨b, t, r⟩ :: ⟨f, c.resumePC + 1, r⟩ :: rest }, true)
    ∧ Disjoint b f ∧ b ∪ f = c.active
    ∧ stackSize { s with runtimeStack :=
          ⟨b, t, r⟩ :: ⟨f, c.resumePC + 1, r⟩ :: rest }
      = stackSize s + 1 := by
  have hbound := divergent_bound hInv hs hpart hdisj hb hf
  refine ⟨eval_Bra_divergent_eq hs hb hf hbound, hdisj, hpart, ?_⟩
  simp [stackSize, allContexts, hs]

/-- Witness for C1 on the concrete state `stateA`: lanes 0 and 1 diverge,
lane 0 taking the branch to PC 20 and lane 1 falling through to PC 6. -/
theorem eval_Bra_divergent_partitions_witness :
    eval_Bra stateA 20 9 {0} {1}
      = Except.ok ({ stateA with runtimeStack :=
          [⟨{0}, 20, 9⟩, ⟨{1}, 6, 9⟩, ⟨{2, 3}, 7, 9⟩] }, true)
    ∧ Disjoint ({0} : Finset ℕ) {1}
    ∧ ({0} : Finset ℕ) ∪ {1} = (⟨{0, 1}, 5, 9⟩ : CTAContext).active
    ∧ stackSize { stateA with runtimeStack :=
          [⟨{0}, 20, 9⟩, ⟨{1}, 6, 9⟩, ⟨{2, 3}, 7, 9⟩] }
      = stackSize stateA + 1 :=
  eval_Bra_divergent_partitions stateA ⟨{0, 1}, 5, 9⟩ [⟨{2, 3}, 7, 9⟩]
    20 9 {0} {1} (by decide) rfl (by decide) (by decide) (by decide) (by decide)

/-- C2: the divergence-stack invariant — pairwise-disjoint non-empty masks
whose union is exactly the warp's not-yet-exited threads — is established by
`initialize` and preserved by every engine operation (`eval_Bra`, `eval_Bar`,
`eval_Reconverge`, `eval_Exit`, `nextInstruction`). -/
theorem engine_preserves_stack_invariant (s : ReconvergenceMechanism)
    (hInv : Inv s) :
    Inv (engineInit s) ∧ ∀ l s', Step s l s' → Inv s' :=
  ⟨inv_engineInit hInv.1, fun _ _ hstep => inv_step hInv hstep⟩

/-- Witness for C2: the invariant holds after resetting `stateA` and after a
concrete `eval_Exit` step on `stateA`. -/
theorem engine_preserves_stack_invariant_witness :
    Inv (engineInit stateA) ∧ Inv (eval_Exit stateA {0}) :=
  ⟨(engine_preserves_stack_invariant stateA (by decide)).1,
    (engine_preserves_stack_invariant stateA (by decide)).2
      (StepLabel.exitL {0}) (eval_Exit stateA {0})
      (Step.exitStep stateA {0} (by decide))⟩

/-- C3: `eval_Reconverge` merges all pending contexts whose reconvergence PC
equals the current PC into exactly one context whose mask is the union of the
merged masks and whose PC is the reconverge instruction's address, and it
fails with `InvalidReconvergePoint` exactly when no pending context's
reconvergence PC matches the current PC. -/
theorem eval_Reconverge_merges_matching_contexts
    (s : ReconvergenceMechanism) (c : CTAContext) (rest : List CTAContext)
    (hs : s.runtimeStack = c :: rest) :
    (s.runtimeStack.filter (fun x => x.reconvergePC == c.resumePC) = [] →
      eval_Reconverge s = Except.error
        (EngineError.InvalidReconvergePoint c.resumePC c.active))
    ∧ (s.runtimeStack.filter (fun x => x.reconvergePC == c.resumePC) ≠ [] →
      eval_Reconverge s = Except.ok { s with runtimeStack := ⟨unionMasks (s.runtimeStack.filter (fun x => x.reconvergePC == c.resumePC)), c.resumePC, s.sentinelPC⟩ :: s.runtimeStack.filter (fun x => !(x.reconvergePC == c.resumePC)) }) :=
  ⟨fun hm => eval_Reconverge_fail_eq hs hm,
    fun hm => eval_Reconverge_merge_eq hs hm⟩

/-- Witness for C3: on `stateA` (current PC 5, no matching reconvergence PC)
the call fails with `InvalidReconvergePoint`; on `stateR` (current PC 9, both
contexts pending reconvergence at 9) both contexts merge into one. -/
theorem eval_Reconverge_merges_matching_contexts_witness :
    (stateA.runtimeStack.filter (fun x => x.reconvergePC == 5) = []
      ∧ eval_Reconverge stateA
        = Except.error (EngineError.InvalidReconvergePoint 5 {0, 1}))
    ∧ (stateR.runtimeStack.filter (fun x => x.reconvergePC == 9) ≠ []
      ∧ eval_Reconverge stateR
        = Except.ok { stateR with runtimeStack :=
            [⟨unionMasks
                (stateR.runtimeStack.filter (fun x => x.reconvergePC == 9)),
              9, 100⟩] }) :=
  ⟨⟨by decide,
    (eval_Reconverge_merges_matching_contexts stateA ⟨{0, 1}, 5, 9⟩
      [⟨{2, 3}, 7, 9⟩] rfl).1 (by decide)⟩,
   ⟨by decide,
    (eval_Reconverge_merges_matching_contexts stateR ⟨{0, 1}, 9, 9⟩
      [⟨{2, 3}, 7, 9⟩] rfl).2 (by decide)⟩⟩

/-- C4: `eval_Exit` removes the currently-predicated-active threads of the
selected context from its mask permanently (they are recorded exited, and no
later driving-loop step ever puts them back in any context's mask); a context
whose mask becomes empty is popped; and when the warp's total active mask
becomes empty the stack size is 0 and the warp reports Terminated. -/
theorem eval_Exit_removes_threads_permanently
    (s : ReconvergenceMechanism) (c : CTAContext) (rest : List CTAContext)
    (p : Finset ℕ) (hInv : Inv s) (hs : s.runtimeStack = c :: rest) :
    c.active ∩ p ⊆ (eval_Exit s p).exited
    ∧ (∀ s'', Steps (eval_Exit s p) s'' →
        ∀ x ∈ allContexts s'', Disjoint x.active (c.active ∩ p))
    ∧ (c.active \ p = ∅ → (eval_Exit s p).runtimeStack = rest)
    ∧ (totalActive (eval_Exit s p) = ∅ →
        stackSize (eval_Exit s p) = 0
        ∧ status (eval_Exit s p) = ExecutionStatus.Terminated) := by
  have hInv' : Inv (eval_Exit s p) := inv_eval_Exit hInv
  have hsub : c.active ∩ p ⊆ (eval_Exit s p).exited := by
    by_cases he : c.active \ p = ∅
    · rw [eval_Exit_pop_eq hs he]
      exact Finset.subset_union_right
    · rw [eval_Exit_keep_eq hs he]
      exact Finset.subset_union_right
  refine ⟨hsub, ?_, fun he => by rw [eval_Exit_pop_eq hs he],
    fun ht => terminated_of_totalActive_empty hInv' ht⟩
  intro s'' hSteps x hx
  obtain ⟨hInv'', hmono⟩ := steps_inv_exited hInv' hSteps
  have hxsub : x.active ⊆ warp s'' \ s''.exited := by
    rw [← hInv''.2.2.2.1]
    exact active_subset_unionMasks hx
  rw [Finset.disjoint_left]
  intro a hax hap
  have h1 : a ∈ s''.exited := hmono (hsub hap)
  have h2 : a ∉ s''.exited := (Finset.mem_sdiff.mp (hxsub hax)).2
  exact h2 h1

/-- Witness for C4 on `stateA`: exiting lanes 0 and 1 empties and pops their
context; the surviving context's mask is disjoint from the exited lanes; a
second exit of lanes 2 and 3 terminates the warp with stack size 0. -/
theorem eval_Exit_removes_threads_permanently_witness :
    (⟨{0, 1}, 5, 9⟩ : CTAContext).active ∩ {0, 1}
      ⊆ (eval_Exit stateA {0, 1}).exited
    ∧ Disjoint (⟨{2, 3}, 7, 9⟩ : CTAContext).active
        ((⟨{0, 1}, 5, 9⟩ : CTAContext).active ∩ {0, 1})
    ∧ (eval_Exit stateA {0, 1}).runtimeStack = [⟨{2, 3}, 7, 9⟩]
    ∧ (stackSize (eval_Exit (eval_Exit stateA {0, 1}) {2, 3}) = 0
      ∧ status (eval_Exit (eval_Exit stateA {0, 1}) {2, 3})
        = ExecutionStatus.Terminated) :=
  have h1 := eval_Exit_removes_threads_permanently stateA ⟨{0, 1}, 5, 9⟩
    [⟨{2, 3}, 7, 9⟩] {0, 1} (by decide) rfl
  have h2 := eval_Exit_removes_threads_permanently (eval_Exit stateA {0, 1})
    ⟨{2, 3}, 7, 9⟩ [] {2, 3} (by decide) (by decide)
  ⟨h1.1,
    h1.2.1 (eval_Exit stateA {0, 1}) Relation.ReflTransGen.refl
      ⟨{2, 3}, 7, 9⟩ (by decide),
    h1.2.2.1 (by decide),
    h2.2.2.2 (by decide)⟩

/-- C5: a context that has arrived at a barrier is never the selected fetch
point, no non-barrier operation releases it, another context arriving while
some obligated context is still runnable merely joins the waiting set, and the
collapse into one merged context happens exactly when the last runnable
context arrives. -/
theorem eval_Bar_blocks_until_all_arrive (s : ReconvergenceMechanism)
    (hInv : Inv s) :
    (∀ b ∈ s.barrierStack, getContext s ≠ some b)
    ∧ (∀ l s', Step s l s' → l.isBar = false →
        s'.barrierStack = s.barrierStack)
    ∧ (∀ c rest, s.runtimeStack = c :: rest → rest ≠ [] →
        eval_Bar s
          = { s with runtimeStack := rest, barrierStack := c :: s.barrierStack })
    ∧ (∀ c, s.runtimeStack = [c] →
        eval_Bar s
          = { s with
              runtimeStack := [⟨unionMasks (c :: s.barrierStack), c.resumePC + 1, s.sentinelPC⟩]
              barrierStack := [] }) :=
  ⟨barrier_not_selected hInv,
    fun _ _ hstep hl => step_barrier_frame hstep hl,
    fun _ _ hs hne => eval_Bar_wait_eq hs hne,
    fun _ hs => eval_Bar_merge_eq hs⟩

/-- Witness for C5: in `stateBar` the arrived context is not the fetch point
and a non-barrier step leaves it waiting; in `stateA` a first barrier arrival
joins the waiting set; in `stateBar` the last arrival merges all contexts. -/
theorem eval_Bar_blocks_until_all_arrive_witness :
    getContext stateBar ≠ some ⟨{2, 3}, 3, 9⟩
    ∧ (nextInstruction stateBar).1.barrierStack = stateBar.barrierStack
    ∧ eval_Bar stateA
      = { stateA with runtimeStack := [⟨{2, 3}, 7, 9⟩], barrierStack := [⟨{0, 1}, 5, 9⟩] }
    ∧ eval_Bar stateBar
      = { stateBar with
          runtimeStack := [⟨unionMasks (⟨{0, 1}, 5, 9⟩ :: stateBar.barrierStack), 6, 100⟩]
          barrierStack := [] } :=
  ⟨(eval_Bar_blocks_until_all_arrive stateBar (by decide)).1
      ⟨{2, 3}, 3, 9⟩ (by decide),
    (eval_Bar_blocks_until_all_arrive stateBar (by decide)).2.1
      StepLabel.nextL (nextInstruction stateBar).1
      (Step.next stateBar (by decide)) rfl,
    (eval_Bar_blocks_until_all_arrive stateA (by decide)).2.2.1
      ⟨{0, 1}, 5, 9⟩ [⟨{2, 3}, 7, 9⟩] rfl (by decide),
    (eval_Bar_blocks_until_all_arrive stateBar (by decide)).2.2.2
      ⟨{0, 1}, 5, 9⟩ rfl⟩

/-- C6: for every `eval_Bra` call in which exactly one of the branch and
fallthrough masks is non-empty, no context is pushed or popped (`stackSize`
unchanged): the selected context's PC is updated in place to the single
destination and divergent = false is returned. -/
theorem eval_Bra_uniform_updates_in_place
    (s : ReconvergenceMechanism) (c : CTAContext) (rest : List CTAContext)
    (t r : ℕ) (b f : Finset ℕ) (hs : s.runtimeStack = c :: rest)
    (hone : (b.Nonempty ∧ f = ∅) ∨ (b = ∅ ∧ f.Nonempty)) :
    eval_Bra s t r b f
      = Except.ok ({ s with runtimeStack :=
          { c with resumePC := if b.Nonempty then t else c.resumePC + 1 }
            :: rest }, false)
    ∧ stackSize { s with runtimeStack :=
          { c with resumePC := if b.Nonempty then t else c.resumePC + 1 }
            :: rest }
      = stackSize s := by
  rcases hone with ⟨hb, hfe⟩ | ⟨hbe, hf⟩
  · rw [if_pos hb]
    exact ⟨eval_Bra_branch_only_eq hs hb hfe, by simp [stackSize, allContexts, hs]⟩
  · rw [if_neg (by simp [hbe])]
    exact ⟨eval_Bra_fallthrough_only_eq hs hbe hf,
      by simp [stackSize, allContexts, hs]⟩

/-- Witness for C6 on `stateA`: all active lanes take the branch to PC 20;
the context is updated in place and the stack size stays 2. -/
theorem eval_Bra_uniform_updates_in_place_witness :
    eval_Bra stateA 20 9 {0, 1} ∅
      = Except.ok ({ stateA with runtimeStack :=
          [⟨{0, 1}, 20, 9⟩, ⟨{2, 3}, 7, 9⟩] }, false)
    ∧ stackSize { stateA with runtimeStack :=
          [⟨{0, 1}, 20, 9⟩, ⟨{2, 3}, 7, 9⟩] }
      = stackSize stateA :=
  eval_Bra_uniform_updates_in_place stateA ⟨{0, 1}, 5, 9⟩ [⟨{2, 3}, 7, 9⟩]
    20 9 {0, 1} ∅ rfl (Or.inl ⟨by decide, rfl⟩)

/-- C7: in every state satisfying the divergence-stack invariant the number of
pending contexts is bounded by the warp's thread count, and a divergent push
that would exceed this bound raises `DivergenceStackOverflow` carrying the
offending PC and thread mask instead of growing the stack. -/
theorem stackSize_bounded_and_overflow_raises (s : ReconvergenceMechanism) :
    (Inv s → stackSize s ≤ s.numThreads)
    ∧ (∀ c rest t r b f, s.runtimeStack = c :: rest →
        Finset.Nonempty b → Finset.Nonempty f →
        s.numThreads < rest.length + 2 + s.barrierStack.length →
        eval_Bra s t r b f = Except.error
          (EngineError.DivergenceStackOverflow c.resumePC c.active)) :=
  ⟨fun h => inv_stackSize_le h,
    fun _ _ _ _ _ _ hs hb hf hover => eval_Bra_overflow_eq hs hb hf hover⟩

/-- Witness for C7: `stateA` has 2 pending contexts in a 4-thread warp, and
splitting the single context of the one-thread warp `stateOv` raises
`DivergenceStackOverflow` at its PC 6 with its mask. -/
theorem stackSize_bounded_and_overflow_raises_witness :
    stackSize stateA ≤ stateA.numThreads
    ∧ eval_Bra stateOv 20 9 {0} {1}
      = Except.error (EngineError.DivergenceStackOverflow 6 {0}) :=
  ⟨(stackSize_bounded_and_overflow_raises stateA).1 (by decide),
    (stackSize_bounded_and_overflow_raises stateOv).2 ⟨{0}, 6, 9⟩ [] 20 9
      {0} {1} rfl (by decide) (by decide) (by decide)⟩

/-- C8: `initialize` (modelled as `engineInit`) is idempotent from any engine
state and yields a stack holding exactly one context whose mask covers all
threads of the warp, with resume PC the kernel entry and reconvergence PC the
terminal sentinel. -/
theorem engineInit_idempotent_single_context (s : ReconvergenceMechanism) :
    engineInit (engineInit s) = engineInit s
    ∧ (engineInit s).runtimeStack
      = [⟨Finset.range s.numThreads, s.entryPC, s.sentinelPC⟩]
    ∧ (engineInit s).barrierStack = []
    ∧ (engineInit s).exited = ∅ :=
  ⟨rfl, rfl, rfl, rfl⟩

/-- C9: `evalPredicate` leaves the divergence stack (indeed the whole engine
state) unchanged; the transient submask it returns is exactly the
predicate-true subset of the selected context's mask, and threads whose
predicate is false are excluded from the submask but remain in the selected
context's active mask. -/
theorem evalPredicate_no_stack_mutation (s : ReconvergenceMechanism)
    (p : ℕ → Bool) :
    (evalPredicate s p).1 = s
    ∧ ∀ c rest, s.runtimeStack = c :: rest →
        (evalPredicate s p).2 = c.active.filter (fun x => p x)
        ∧ ∀ x ∈ c.active, p x = false →
            x ∉ (evalPredicate s p).2
            ∧ x ∈ (((evalPredicate s p).1.runtimeStack.headD c).active) := by
  have hfst : (evalPredicate s p).1 = s := by
    cases hs : s.runtimeStack <;> simp [evalPredicate, hs]
  refine ⟨hfst, ?_⟩
  intro c rest hs
  have hsnd : (evalPredicate s p).2 = c.active.filter (fun x => p x) := by
    simp [evalPredicate, hs]
  refine ⟨hsnd, ?_⟩
  intro x hx hpx
  constructor
  · rw [hsnd]
    simp [Finset.mem_filter, hpx]
  · rw [hfst, hs]
    simpa using hx

/-- Witness for C9 on `stateA` with the predicate true only on lane 0: the
state is unchanged, the submask is the filtered mask, and lane 1 stays in the
selected context's active mask while excluded from the submask. -/
theorem evalPredicate_no_stack_mutation_witness :
    (evalPredicate stateA (fun x => x == 0)).1 = stateA
    ∧ (evalPredicate stateA (fun x => x == 0)).2 = {0}
    ∧ ((1 : ℕ) ∉ (evalPredicate stateA (fun x => x == 0)).2
      ∧ (1 : ℕ) ∈ (((evalPredicate stateA (fun x => x == 0)).1.runtimeStack.headD
          ⟨{0, 1}, 5, 9⟩).active)) := by
  have h := evalPredicate_no_stack_mutation stateA (fun x => x == 0)
  have h2 := h.2 ⟨{0, 1}, 5, 9⟩ [⟨{2, 3}, 7, 9⟩] rfl
  refine ⟨h.1, ?_, h2.2 1 (by decide) (by decide)⟩
  rw [h2.1]
  decide

/-- C10: each of the four concrete variants declares exactly one constructor,
taking both a kernel pointer and a CTA pointer; the CTA-only constructor is
declared only on the abstract base class `ReconvergenceMechanism`, so no
variant can be instantiated without supplying kernel metadata. -/
theorem variant_constructors_require_kernel :
    reconvergenceIPDOMCtors = [[CtorParam.kernelPtr, CtorParam.ctaPtr]]
    ∧ reconvergenceBarrierCtors = [[CtorParam.kernelPtr, CtorParam.ctaPtr]]
    ∧ reconvergenceTFGen6Ctors = [[CtorParam.kernelPtr, CtorParam.ctaPtr]]
    ∧ reconvergenceTFSortedStackCtors
      = [[CtorParam.kernelPtr, CtorParam.ctaPtr]]
    ∧ reconvergenceMechanismCtors
      = [[CtorParam.kernelPtr, CtorParam.ctaPtr], [CtorParam.ctaPtr]] :=
  ⟨rfl, rfl, rfl, rfl, rfl⟩
